import Mathlib

/-!
Verification development for the TFX Beam orchestration code.

Part 1 embeds the pipeline graph builder (pipeline construction).  The
graph-builder module itself is not part of the source tree (only its test
suite is), so its definitions are modelled from the specification text, as
noted in their doc comments.

Part 2 embeds `tfx/orchestration/beam/beam_dag_runner.py`: the job-name
derivation, the `beam_pipeline_args` rewriting performed by
`_ComponentAsDoFn.__init__` (modelled with an explicit heap of Python dict
and list objects, so that aliasing and in-place mutation are visible), the
signal-checking `process` method, and the scheduling loop of
`BeamDagRunner.run` (modelled as an event trace in program order).
-/

set_option autoImplicit false

namespace Tfx

/-! ## Part 1: graph builder (pipeline construction), modelled from the spec -/

/-- Modelled from the spec: a Channel is "a type tag, an optional producing
Node (unset for externally supplied channels)"; the producing node is
represented by its identity string.  Artifact descriptors are omitted: no
claim treated here mentions them. -/
structure Channel where
  typeName : String
  producer : Option String
deriving DecidableEq

/-- Modelled from the spec: a Node has an "identity (unique string), ordered
input-channel mapping (name → Channel), ordered output-channel mapping
(name → Channel)"; `upstream`/`downstream` are derived, not stored. -/
structure Node where
  id : String
  inputs : List (String × Channel)
  outputs : List (String × Channel)
deriving DecidableEq

/-- Modelled from the spec: edge derivation — "for each node, for each of its
input channels, if the channel has a producing node, add an edge
producer → consumer".  `hasEdge u v` holds when some input channel of `v`
names `u` as its producer. -/
def hasEdge (u v : Node) : Bool :=
  v.inputs.any (fun p => p.2.producer == some u.id)

/-- A node `v` has zero indegree among `remaining` when no node of
`remaining` has a derived edge into `v`. -/
def zeroIndeg (remaining : List Node) (v : Node) : Bool :=
  remaining.all (fun u => !(hasEdge u v))

/-- Modelled from the spec: `GraphError`, with the two structural failures
`DuplicateNodeIdentity` and `CycleDetected` (the latter "naming at least one
node on the cycle"; here it carries the identities of all unprocessed
nodes). -/
inductive GraphError where
  | duplicateNodeIdentity
  | cycleDetected (names : List String)
deriving DecidableEq

/-- Modelled from the spec: stable topological sort by "repeated extraction
of zero-indegree nodes, ties broken by original input order".  The fuel is
the number of remaining nodes; each successful step removes exactly one
node, so fuel never runs out on the inputs `build` supplies. -/
def kahnAux : Nat → List Node → Except GraphError (List Node)
  | _, [] => .ok []
  | 0, remaining => .error (.cycleDetected (remaining.map Node.id))
  | fuel + 1, remaining =>
    match remaining.find? (zeroIndeg remaining) with
    | some v =>
      match kahnAux fuel (remaining.erase v) with
      | .ok rest => .ok (v :: rest)
      | .error e => .error e
    | none => .error (.cycleDetected (remaining.map Node.id))

/-- Helper for `dedupFirst`: drop any node already recorded in `seen`,
keeping first occurrences in order. -/
def dedupSeen (seen : List Node) : List Node → List Node
  | [] => []
  | x :: xs => if x ∈ seen then dedupSeen seen xs else x :: dedupSeen (x :: seen) xs

/-- Modelled from the spec: "Deduplicate identical Node references passed
multiple times in the input collection (idempotent membership) before
steps 1–3"; the first occurrence is kept, preserving original input
order. -/
def dedupFirst (l : List Node) : List Node := dedupSeen [] l

/-- Modelled from the spec: pipeline construction — deduplicate the node
collection, fail with `DuplicateNodeIdentity` if an identity repeats, then
topologically sort, failing with `CycleDetected` when no zero-indegree node
remains among unprocessed nodes. -/
def build (nodes : List Node) : Except GraphError (List Node) :=
  if ((dedupFirst nodes).map Node.id).Nodup then
    kahnAux (dedupFirst nodes).length (dedupFirst nodes)
  else .error .duplicateNodeIdentity

/-- `chainFrom u vs start` holds when there are derived edges
`u → vs₀ → vs₁ → ⋯ → last vs → start` (with `u → start` when `vs` is
empty). -/
def chainFrom (u : Node) : List Node → Node → Bool
  | [], start => hasEdge u start
  | v :: vs, start => hasEdge u v && chainFrom v vs start

/-- `isCycleList cyc` holds when `cyc` lists the nodes of a dependency cycle
of length at least 2: consecutive nodes are joined by derived edges and the
last node has an edge back to the first. -/
def isCycleList : List Node → Bool
  | [] => false
  | c :: cs => !cs.isEmpty && chainFrom c cs c

/-! ## Part 2: the Beam DAG runner (`beam_dag_runner.py`) -/

/-- A component as seen by `BeamDagRunner.run`: its `component_id` and the
identities of its `upstream_nodes`.  (Pipeline construction guarantees
component ids are unique, so nodes are abstracted by their ids.) -/
structure RNode where
  id : String
  upstream : List String
deriving DecidableEq

/-- The wiring of one execution unit: the `beam.ParDo` receives the root
trigger as its main input and one side input (`beam.pvalue.AsIter`) per
upstream completion signal; signals are labelled by their producing
component's id. -/
structure ScheduledUnit where
  componentId : String
  rootTrigger : Bool
  joins : List String
deriving DecidableEq

/-- Events emitted by `BeamDagRunner.run`, in program order. -/
inductive REvent where
  | appendOrchestratorArg (arg : String)
  | exportReturn
  | assignRunId (runId : String)
  | createRoot
  | scheduleUnit (unit : ScheduledUnit)
  | orderingViolation
deriving DecidableEq

/-- `wireUnit c` is the execution unit `run` builds for component `c`:
triggered by the root token with an AND-join on exactly the completion
signals of `c`'s upstream nodes. -/
def wireUnit (c : RNode) : ScheduledUnit :=
  { componentId := c.id, rootTrigger := true, joins := c.upstream }

/-- The scheduling loop of `BeamDagRunner.run`: `signalMap` holds the ids of
components already given a completion signal.  For each component, every
upstream node must already be in the map (`assert upstream_node in
signal_map`); otherwise the loop fails fatally and schedules nothing
further.  On success the component's unit is wired from its upstream
signals and its own signal is added to the map. -/
def scheduleGo (signalMap : List String) : List RNode → List REvent
  | [] => []
  | c :: rest =>
    if c.upstream.all (fun u => signalMap.contains u) then
      REvent.scheduleUnit (wireUnit c) :: scheduleGo (signalMap ++ [c.id]) rest
    else [REvent.orderingViolation]

/-- `topoFrom signalMap comps`: every component of `comps` has all of its
upstream ids either in `signalMap` or among the ids of components occurring
strictly earlier in `comps`. -/
def topoFrom (signalMap : List String) (comps : List RNode) : Prop :=
  ∀ pre c post, comps = pre ++ c :: post →
    ∀ u ∈ c.upstream, u ∈ signalMap ++ pre.map RNode.id

/-- A component list is topologically ordered when every component's
upstream nodes occur strictly earlier in the list. -/
def topoOrdered (comps : List RNode) : Prop := topoFrom [] comps

/-- A character admitted unchanged by the job-name sanitizer: the class
`[0-9a-zA-Z-]` of `re.sub(r'[^0-9a-zA-Z-]+', '-', ...)`. -/
def goodChar (c : Char) : Bool := c.isAlphanum || c == '-'

/-- Sanitizer core: each maximal run of characters outside `[0-9a-zA-Z-]`
is replaced by a single `'-'`.  The flag records whether the previous
character was part of such a run. -/
def sanitizeAux : List Char → Bool → List Char
  | [], _ => []
  | c :: cs, inBad =>
    if goodChar c then c :: sanitizeAux cs false
    else if inBad then sanitizeAux cs true
    else '-' :: sanitizeAux cs true

/-- `re.sub(r'[^0-9a-zA-Z-]+', '-', s)`. -/
def sanitize (s : String) : String := ⟨sanitizeAux s.data false⟩

/-- Python `str.lower()` (character-wise; ASCII suffices here). -/
def pyLower (s : String) : String := ⟨s.data.map Char.toLower⟩

/-- Python `str.startswith(p)`. -/
def pyStartsWith (s p : String) : Bool := p.data.isPrefixOf s.data

/-- The per-component job name of `_ComponentAsDoFn.__init__`:
`'{pipeline_name}-{component}-{ts}'.format(...).lower()` sanitized. -/
def componentJobName (pipelineName componentId : String) (ts : Nat) : String :=
  sanitize (pyLower (pipelineName ++ "-" ++ componentId ++ "-" ++ Nat.repr ts))

/-- The orchestrator job name of `BeamDagRunner.run`:
`'{pipeline_name}-{ts}'.format(...).lower()` sanitized. -/
def orchestratorJobName (pipelineName : String) (ts : Nat) : String :=
  sanitize (pyLower (pipelineName ++ "-" ++ Nat.repr ts))

/-- The `--job_name=...` argument appended by `_ComponentAsDoFn.__init__`. -/
def jobNameArg (pipelineName componentId : String) (ts : Nat) : String :=
  "--job_name=" ++ componentJobName pipelineName componentId ts

/-! ### The heap model for `_ComponentAsDoFn.__init__`

Python dicts and lists are mutable objects; `__init__` takes a shallow
`copy()` of the pipeline's `additional_pipeline_args`, so the dict object it
then mutates is its own while the contained list objects are initially
shared with the pipeline.  The heap holds dict objects (association lists
from string keys to list references) and list objects; references are
indices, and allocation appends. -/

structure Heap where
  dicts : List (List (String × Nat))
  lists : List (List String)

/-- The key `'beam_pipeline_args'` of `additional_pipeline_args`. -/
def beamKey : String := "beam_pipeline_args"

/-- Lookup in a Python dict (association list). -/
def assocGet : List (String × Nat) → String → Option Nat
  | [], _ => none
  | (k', v') :: rest, k => if k' = k then some v' else assocGet rest k

/-- Assignment `d[k] = v` on a Python dict: an existing key keeps its
position, a new key is appended. -/
def assocSet : List (String × Nat) → String → Nat → List (String × Nat)
  | [], k, v => [(k, v)]
  | (k', v') :: rest, k, v =>
    if k' = k then (k, v) :: rest else (k', v') :: assocSet rest k v

def Heap.getDict (h : Heap) (r : Nat) : List (String × Nat) := h.dicts.getD r []

def Heap.getList (h : Heap) (r : Nat) : List String := h.lists.getD r []

def Heap.allocDict (h : Heap) (d : List (String × Nat)) : Heap × Nat :=
  ({ h with dicts := h.dicts ++ [d] }, h.dicts.length)

def Heap.allocList (h : Heap) (l : List String) : Heap × Nat :=
  ({ h with lists := h.lists ++ [l] }, h.lists.length)

def Heap.setDictKey (h : Heap) (r : Nat) (k : String) (v : Nat) : Heap :=
  { h with dicts := h.dicts.set r (assocSet (h.getDict r) k v) }

def Heap.setList (h : Heap) (r : Nat) (l : List String) : Heap :=
  { h with lists := h.lists.set r l }

/-- The dict/list manipulation of `_ComponentAsDoFn.__init__`, statement by
statement: copy the pipeline's `additional_pipeline_args` dict; run
`setdefault('beam_pipeline_args', [])` on the copy; build a fresh list
holding the old arguments with every `--job_name`-headed one stripped;
store it under the key; append the derived `--job_name=...` argument to
that fresh list.  Returns the heap and the DoFn's own dict reference.
(The `DriverArgs` and `ComponentLauncher` constructions are external
collaborators and build no further state modelled here.) -/
def componentInit (h : Heap) (pdict : Nat) (pipelineName componentId : String)
    (ts : Nat) : Heap × Nat :=
  let a1 := h.allocDict (h.getDict pdict)
  let h1 := a1.1
  let selfDict := a1.2
  let sd :=
    match assocGet (h1.getDict selfDict) beamKey with
    | some r => (h1, r)
    | none =>
      let a2 := h1.allocList []
      (a2.1.setDictKey selfDict beamKey a2.2, a2.2)
  let h3 := sd.1
  let cur := h3.getList sd.2
  let a3 := h3.allocList (cur.filter (fun a => !(pyStartsWith a "--job_name")))
  let h4 := a3.1
  let newRef := a3.2
  let h5 := h4.setDictKey selfDict beamKey newRef
  let h6 := h5.setList newRef
    (h5.getList newRef ++ [jobNameArg pipelineName componentId ts])
  (h6, selfDict)

/-- The value of a dict's `beam_pipeline_args` entry, when present. -/
def beamArgsOf (h : Heap) (d : Nat) : Option (List String) :=
  match assocGet (h.getDict d) beamKey with
  | some r => some (h.getList r)
  | none => none

/-- The effective `beam_pipeline_args` of a dict, with a missing key read as
`[]` (the `setdefault` default). -/
def origBeamArgs (h : Heap) (d : Nat) : List String :=
  match assocGet (h.getDict d) beamKey with
  | some r => h.getList r
  | none => []

/-- The list `_ComponentAsDoFn.__init__` leaves under `beam_pipeline_args`:
the previous arguments with every `--job_name`-headed one stripped, then
the derived `--job_name=...` argument. -/
def newBeamArgs (args : List String) (pipelineName componentId : String)
    (ts : Nat) : List String :=
  args.filter (fun a => !(pyStartsWith a "--job_name"))
    ++ [jobNameArg pipelineName componentId ts]

/-! ### `_ComponentAsDoFn.process` -/

/-- Events of one `process` invocation. -/
inductive PEvent where
  | launch (componentId : String)
  | contractViolation
deriving DecidableEq

/-- The `for signal in signals: assert not list(signal)` loop: true when
every side-input signal collection is empty; the first non-empty one aborts
the check. -/
def checkSignals {α : Type} : List (List α) → Bool
  | [] => true
  | s :: rest => if s.isEmpty then checkSignals rest else false

/-- `_ComponentAsDoFn.process`: assert every upstream signal collection is
empty, failing fatally otherwise; then invoke the wrapped launcher exactly
once (via `_run_component`). -/
def process {α : Type} (componentId : String) (signals : List (List α)) :
    List PEvent :=
  if checkSignals signals then [PEvent.launch componentId]
  else [PEvent.contractViolation]

/-! ### `BeamDagRunner.run` as an event trace -/

/-- A Python `datetime` value, as far as `isoformat` needs it. -/
structure PyDateTime where
  year : Nat
  month : Nat
  day : Nat
  hour : Nat
  minute : Nat
  second : Nat
  microsecond : Nat
deriving DecidableEq

/-- Two decimal digits, zero padded (`%02d` for values below 100). -/
def pad2 (n : Nat) : List Char := [Nat.digitChar (n / 10), Nat.digitChar (n % 10)]

/-- Four decimal digits, zero padded (`%04d` for values below 10000). -/
def pad4 (n : Nat) : List Char :=
  [Nat.digitChar (n / 1000), Nat.digitChar (n / 100 % 10),
   Nat.digitChar (n / 10 % 10), Nat.digitChar (n % 10)]

/-- Six decimal digits, zero padded (`%06d` for values below 1000000). -/
def pad6 (n : Nat) : List Char :=
  [Nat.digitChar (n / 100000), Nat.digitChar (n / 10000 % 10),
   Nat.digitChar (n / 1000 % 10), Nat.digitChar (n / 100 % 10),
   Nat.digitChar (n / 10 % 10), Nat.digitChar (n % 10)]

/-- Python `datetime.isoformat()`: `YYYY-MM-DDTHH:MM:SS`, with
`.ffffff` appended exactly when the microsecond field is non-zero. -/
def pyIsoFormat (dt : PyDateTime) : String :=
  ⟨pad4 dt.year ++ '-' :: pad2 dt.month ++ '-' :: pad2 dt.day
    ++ 'T' :: pad2 dt.hour ++ ':' :: pad2 dt.minute ++ ':' :: pad2 dt.second
    ++ (if dt.microsecond = 0 then [] else '.' :: pad6 dt.microsecond)⟩

/-- Character mask of an ISO-8601 timestamp without fractional seconds
(`d` marks a decimal digit position). -/
def isoMaskSec : List Char :=
  ['d', 'd', 'd', 'd', '-', 'd', 'd', '-', 'd', 'd', 'T',
   'd', 'd', ':', 'd', 'd', ':', 'd', 'd']

/-- Character mask of an ISO-8601 timestamp with microseconds. -/
def isoMaskMicro : List Char := isoMaskSec ++ ['.', 'd', 'd', 'd', 'd', 'd', 'd']

/-- Match a character list against a mask: `d` positions require a decimal
digit, every other position requires that exact character. -/
def matchesMask : List Char → List Char → Bool
  | [], [] => true
  | c :: cs, m :: ms => (if m = 'd' then c.isDigit else c == m) && matchesMask cs ms
  | _, _ => false

/-- A string is an ISO-8601 timestamp when it matches either mask. -/
def isIso8601 (s : String) : Bool :=
  matchesMask s.data isoMaskSec || matchesMask s.data isoMaskMicro

/-- The inputs of one `BeamDagRunner.run` invocation: whether
`TFX_JSON_EXPORT_PIPELINE_ARGS_PATH` is in the environment, the pipeline
name and (topologically ordered) component list, the runner's
`_beam_orchestrator_args`, and the two clock observations (the integer
timestamp used in the orchestrator job name, and the `datetime` whose
`isoformat` becomes the run id). -/
structure RunInput where
  envExportSet : Bool
  pipelineName : String
  components : List RNode
  beamOrchestratorArgs : List String
  ts : Nat
  now : PyDateTime

/-- The orchestrator job-name append at the top of `run`: executed only when
no existing argument already starts with `--job_name=`. -/
def orchPrefix (inp : RunInput) : List REvent :=
  if inp.beamOrchestratorArgs.any (fun a => pyStartsWith a "--job_name=") then []
  else [REvent.appendOrchestratorArg
    ("--job_name=" ++ orchestratorJobName inp.pipelineName inp.ts)]

/-- `BeamDagRunner.run` as an event trace, in program order: the
orchestrator-args append; then, if the export environment variable is set,
an immediate return; otherwise the run-id assignment, the root trigger
creation, and the scheduling loop. -/
def runTrace (inp : RunInput) : List REvent :=
  orchPrefix inp ++
    (if inp.envExportSet then [REvent.exportReturn]
     else REvent.assignRunId (pyIsoFormat inp.now) :: REvent.createRoot
       :: scheduleGo [] inp.components)

/-- Recognize execution-unit scheduling events. -/
def isUnitEvent : REvent → Bool
  | .scheduleUnit _ => true
  | _ => false

/-- Recognize run-id assignment events. -/
def isAssignEvent : REvent → Bool
  | .assignRunId _ => true
  | _ => false

/-- Number of execution units scheduled in a trace. -/
def numUnitsScheduled (t : List REvent) : Nat := (t.filter isUnitEvent).length

/-- Number of run-id assignments in a trace. -/
def numRunIdAssigns (t : List REvent) : Nat := (t.filter isAssignEvent).length

/-! ## General helper lemmas -/

theorem setAppendLen {α : Type} (l : List α) (x y : α) :
    (l ++ [x]).set l.length y = l ++ [y] := by
  induction l with
  | nil => rfl
  | cons a t ih => simp [List.set, ih]

theorem getDAppendLen {α : Type} (l : List α) (x d : α) :
    (l ++ [x]).getD l.length d = x := by
  induction l with
  | nil => rfl
  | cons a t ih => simp [ih]

theorem isPrefixOfAppendSelf {α : Type} [DecidableEq α] (l t : List α) :
    l.isPrefixOf (l ++ t) = true := by
  induction l with
  | nil => simp [List.isPrefixOf]
  | cons a l ih => simp [List.isPrefixOf, ih]

theorem jobNameArgStarts (s : String) :
    pyStartsWith ("--job_name=" ++ s) "--job_name" = true := by
  have hdata : ("--job_name=" ++ s).data
      = ("--job_name" : String).data ++ ('=' :: s.data) := by
    rw [String.data_append]
    have : ("--job_name=" : String).data = ("--job_name" : String).data ++ ['='] := by
      decide
    simp [this]
  rw [pyStartsWith, hdata]
  exact isPrefixOfAppendSelf _ _

/-! ## `_ComponentAsDoFn.process` (claim C2) -/

theorem checkSignalsTrue {α : Type} (signals : List (List α)) :
    checkSignals signals = true ↔ ∀ s ∈ signals, s = [] := by
  induction signals with
  | nil => simp [checkSignals]
  | cons s rest ih =>
    cases s with
    | nil => simpa [checkSignals] using ih
    | cons a t => simp [checkSignals]

/-- Claim C2: in every invocation of `_ComponentAsDoFn.process`, if every
upstream signal collection is empty the wrapped launcher is invoked exactly
once, and if any upstream signal collection is non-empty the invocation
fails fatally with the signal-contract violation and the launcher is not
invoked. -/
theorem claim2_process_signal_contract {α : Type} (componentId : String)
    (signals : List (List α)) :
    ((∀ s ∈ signals, s = []) →
      process componentId signals = [PEvent.launch componentId])
    ∧ ((∃ s ∈ signals, s ≠ []) →
      process componentId signals = [PEvent.contractViolation]) := by
  constructor
  · intro hall
    simp [process, (checkSignalsTrue signals).2 hall]
  · rintro ⟨s, hs, hne⟩
    have hfalse : checkSignals signals = false := by
      cases hcs : checkSignals signals
      · rfl
      · exact absurd ((checkSignalsTrue signals).1 hcs s hs) hne
    simp [process, hfalse]

theorem claim2_witness :
    ((∀ s ∈ ([[], []] : List (List Nat)), s = [])
      ∧ process "comp" ([[], []] : List (List Nat)) = [PEvent.launch "comp"])
    ∧ ((∃ s ∈ ([[], [3]] : List (List Nat)), s ≠ [])
      ∧ process "comp" ([[], [3]] : List (List Nat)) = [PEvent.contractViolation]) :=
  ⟨⟨by decide, (claim2_process_signal_contract "comp" _).1 (by decide)⟩,
   ⟨⟨[3], by decide, by decide⟩,
    (claim2_process_signal_contract "comp" _).2 ⟨[3], by decide, by decide⟩⟩⟩

/-! ## The scheduling loop of `run` (claim C1) -/

theorem topoFromNil (signalMap : List String) : topoFrom signalMap [] := by
  intro pre c post h u hu
  exfalso
  cases pre <;> simp at h

theorem topoFromCons (signalMap : List String) (c : RNode) (rest : List RNode) :
    topoFrom signalMap (c :: rest)
      ↔ (∀ u ∈ c.upstream, u ∈ signalMap)
        ∧ topoFrom (signalMap ++ [c.id]) rest := by
  constructor
  · intro h
    constructor
    · intro u hu
      simpa using h [] c rest rfl u hu
    · intro pre d post hrest u hu
      have := h (c :: pre) d post (by simp [hrest]) u hu
      simpa [List.mem_append, or_assoc] using this
  · rintro ⟨h1, h2⟩ pre d post hsplit u hu
    cases pre with
    | nil =>
      simp only [List.nil_append, List.cons.injEq] at hsplit
      obtain ⟨hc, -⟩ := hsplit
      subst hc
      simpa using h1 u hu
    | cons p pre' =>
      simp only [List.cons_append, List.cons.injEq] at hsplit
      obtain ⟨hc, hrest⟩ := hsplit
      subst hc
      have := h2 pre' d post hrest u hu
      simpa [List.mem_append, or_assoc] using this

theorem scheduleGoOk (comps : List RNode) : ∀ signalMap, topoFrom signalMap comps →
    scheduleGo signalMap comps
      = comps.map (fun c => REvent.scheduleUnit (wireUnit c)) := by
  induction comps with
  | nil => intro sm _; rfl
  | cons c rest ih =>
    intro sm h
    rw [topoFromCons] at h
    obtain ⟨h1, h2⟩ := h
    simp [scheduleGo, ih _ h2]
    exact h1

theorem scheduleGoFail (comps : List RNode) : ∀ signalMap, ¬ topoFrom signalMap comps →
    ∃ k, scheduleGo signalMap comps
      = (comps.take k).map (fun c => REvent.scheduleUnit (wireUnit c))
        ++ [REvent.orderingViolation] := by
  induction comps with
  | nil => intro sm h; exact absurd (topoFromNil sm) h
  | cons c rest ih =>
    intro sm h
    rw [topoFromCons] at h
    by_cases h1 : ∀ u ∈ c.upstream, u ∈ sm
    · have h2 : ¬ topoFrom (sm ++ [c.id]) rest := fun hb => h ⟨h1, hb⟩
      obtain ⟨k, hk⟩ := ih _ h2
      refine ⟨k + 1, ?_⟩
      simp [scheduleGo, hk]
      exact h1
    · refine ⟨0, ?_⟩
      simp [scheduleGo]
      push_neg at h1
      exact h1

/-- Claim C1: in the scheduling loop of `BeamDagRunner.run`, when the
component list is in topological order every component finds all of its
upstream nodes' signals already in the signal map and is scheduled as a unit
wired from the root trigger with an AND-join on exactly its upstream
signals; when some component has an upstream node missing from the signal
map at its turn, the loop fails fatally at that component (the ordering
invariant violation) and schedules nothing further. -/
theorem claim1_scheduling_invariant (comps : List RNode) :
    (topoOrdered comps →
      scheduleGo [] comps = comps.map (fun c => REvent.scheduleUnit (wireUnit c)))
    ∧ (¬ topoOrdered comps →
      ∃ k, scheduleGo [] comps
        = (comps.take k).map (fun c => REvent.scheduleUnit (wireUnit c))
          ++ [REvent.orderingViolation]) :=
  ⟨scheduleGoOk comps [], scheduleGoFail comps []⟩

theorem claim1_witness :
    topoOrdered [⟨"a", []⟩, ⟨"b", ["a"]⟩]
    ∧ scheduleGo [] [⟨"a", []⟩, ⟨"b", ["a"]⟩]
      = [REvent.scheduleUnit ⟨"a", true, []⟩, REvent.scheduleUnit ⟨"b", true, ["a"]⟩] := by
  have htopo : topoOrdered [⟨"a", []⟩, ⟨"b", ["a"]⟩] := by
    rw [topoOrdered, topoFromCons, topoFromCons]
    exact ⟨by simp, by simp, topoFromNil _⟩
  exact ⟨htopo, by simpa [wireUnit] using (claim1_scheduling_invariant _).1 htopo⟩

/-! ## Job-name derivation (claim C5) -/

theorem sanitizeData (s : String) : (sanitize s).data = sanitizeAux s.data false := rfl

theorem pyLowerData (s : String) : (pyLower s).data = s.data.map Char.toLower := rfl

theorem sanitizeAuxSplit (l1 l2 : List Char) : ∀ b,
    sanitizeAux (l1 ++ '-' :: l2) b
      = sanitizeAux l1 b ++ '-' :: sanitizeAux l2 false := by
  have hdash : goodChar '-' = true := by decide
  induction l1 with
  | nil => intro b; simp [sanitizeAux, hdash]
  | cons c cs ih =>
    intro b
    by_cases hg : goodChar c = true
    · simp [sanitizeAux, hg, ih]
    · cases b
      · simp [sanitizeAux, hg, ih]
      · simp [sanitizeAux, hg, ih]

theorem toDigitsCoreDigits (fuel : Nat) : ∀ (n : Nat) (ds : List Char),
    (∀ c ∈ ds, ∃ k, k < 10 ∧ c = Nat.digitChar k) →
    ∀ c ∈ Nat.toDigitsCore 10 fuel n ds, ∃ k, k < 10 ∧ c = Nat.digitChar k := by
  induction fuel with
  | zero =>
    intro n ds hds c hc
    exact hds c (by simpa [Nat.toDigitsCore] using hc)
  | succ fuel ih =>
    intro n ds hds c hc
    have hmod : ∃ k, k < 10 ∧ Nat.digitChar (n % 10) = Nat.digitChar k :=
      ⟨n % 10, Nat.mod_lt n (by norm_num), rfl⟩
    by_cases h0 : n / 10 = 0
    · simp [Nat.toDigitsCore, h0] at hc
      rcases hc with hc | hc
      · rw [hc]; exact hmod
      · exact hds c hc
    · simp [Nat.toDigitsCore, h0] at hc
      refine ih (n / 10) (Nat.digitChar (n % 10) :: ds) ?_ c hc
      intro d hd
      rcases List.mem_cons.1 hd with hd | hd
      · rw [hd]; exact hmod
      · exact hds d hd

theorem reprDigits (n : Nat) :
    ∀ c ∈ (Nat.repr n).data, ∃ k, k < 10 ∧ c = Nat.digitChar k := by
  intro c hc
  have hd : (Nat.repr n).data = Nat.toDigitsCore 10 (n + 1) n [] := rfl
  rw [hd] at hc
  exact toDigitsCoreDigits (n + 1) n [] (by simp) c hc

theorem digitCharGood {k : Nat} (hk : k < 10) :
    goodChar (Nat.digitChar k) = true := by
  interval_cases k <;> decide

theorem digitCharLowerFix {k : Nat} (hk : k < 10) :
    Char.toLower (Nat.digitChar k) = Nat.digitChar k := by
  interval_cases k <;> decide

theorem digitCharIsDigit {k : Nat} (hk : k < 10) :
    (Nat.digitChar k).isDigit = true := by
  interval_cases k <;> decide

theorem mapLowerFix (l : List Char) (h : ∀ c ∈ l, Char.toLower c = c) :
    l.map Char.toLower = l := by
  induction l with
  | nil => rfl
  | cons c cs ih => simp [h c (by simp), ih (fun d hd => h d (by simp [hd]))]

theorem sanitizeAuxFix (l : List Char) (h : ∀ c ∈ l, goodChar c = true) :
    sanitizeAux l false = l := by
  induction l with
  | nil => rfl
  | cons c cs ih =>
    simp [sanitizeAux, h c (by simp), ih (fun d hd => h d (by simp [hd]))]

/-- Claim C5: the derived per-component job name follows the pattern
`<sanitized-pipeline-name>-<sanitized-node-id>-<unix-timestamp>`,
lower-cased, with runs of characters outside `[0-9a-zA-Z-]` collapsed to
`-`; and the orchestrator job name (no node id) for pipeline name
`"My Pipeline!"` and timestamp `1700000000` is exactly
`"my-pipeline--1700000000"`. -/
theorem claim5_job_name_pattern :
    (∀ (p c : String) (ts : Nat),
      componentJobName p c ts
        = sanitize (pyLower p) ++ "-" ++ sanitize (pyLower c) ++ "-" ++ Nat.repr ts)
    ∧ orchestratorJobName "My Pipeline!" 1700000000 = "my-pipeline--1700000000" := by
  constructor
  · intro p c ts
    have hlowfix : (Nat.repr ts).data.map Char.toLower = (Nat.repr ts).data := by
      apply mapLowerFix
      intro ch hch
      obtain ⟨k, hk, rfl⟩ := reprDigits ts ch hch
      exact digitCharLowerFix hk
    have hsanfix : sanitizeAux (Nat.repr ts).data false = (Nat.repr ts).data := by
      apply sanitizeAuxFix
      intro ch hch
      obtain ⟨k, hk, rfl⟩ := reprDigits ts ch hch
      exact digitCharGood hk
    have hdash : ("-" : String).data = ['-'] := rfl
    have hdashlow : Char.toLower '-' = '-' := rfl
    apply String.ext
    simp only [componentJobName, sanitizeData, pyLowerData, String.data_append,
      hdash, List.append_assoc, List.cons_append, List.nil_append,
      List.map_append, List.map_cons, hdashlow, hlowfix]
    rw [sanitizeAuxSplit, sanitizeAuxSplit, hsanfix]
  · decide

/-! ## Export short-circuit of `run` (claim C7) -/

/-- Claim C7: when `TFX_JSON_EXPORT_PIPELINE_ARGS_PATH` is set in the
environment, `run` returns before submitting any work to the engine: no
execution unit is created or scheduled, no root trigger is created, and the
trace ends with the early return. -/
theorem claim7_export_short_circuit (inp : RunInput)
    (henv : inp.envExportSet = true) :
    numUnitsScheduled (runTrace inp) = 0
    ∧ REvent.createRoot ∉ runTrace inp
    ∧ (runTrace inp).getLast? = some REvent.exportReturn := by
  have htr : runTrace inp = orchPrefix inp ++ [REvent.exportReturn] := by
    simp [runTrace, henv]
  rw [htr]
  cases h : inp.beamOrchestratorArgs.any (fun a => pyStartsWith a "--job_name=") with
  | true => simp [orchPrefix, h, numUnitsScheduled, isUnitEvent]
  | false => simp [orchPrefix, h, numUnitsScheduled, isUnitEvent]

theorem claim7_witness :
    (RunInput.mk true "p" [⟨"a", []⟩] [] 0 ⟨2023, 11, 14, 22, 13, 20, 0⟩).envExportSet = true
    ∧ numUnitsScheduled (runTrace (RunInput.mk true "p" [⟨"a", []⟩] [] 0 ⟨2023, 11, 14, 22, 13, 20, 0⟩)) = 0
    ∧ REvent.createRoot ∉ runTrace (RunInput.mk true "p" [⟨"a", []⟩] [] 0 ⟨2023, 11, 14, 22, 13, 20, 0⟩)
    ∧ (runTrace (RunInput.mk true "p" [⟨"a", []⟩] [] 0 ⟨2023, 11, 14, 22, 13, 20, 0⟩)).getLast?
      = some REvent.exportReturn :=
  ⟨rfl, claim7_export_short_circuit _ rfl⟩

/-! ## The heap effect of `_ComponentAsDoFn.__init__` (claims C6, C10) -/

theorem getDAppendBelow {α : Type} (l t : List α) (r : Nat) (d : α)
    (hr : r < l.length) : (l ++ t).getD r d = l.getD r d :=
  List.getD_append l t d r hr

theorem assocGetSetSelf (d : List (String × Nat)) (k : String) (v : Nat) :
    assocGet (assocSet d k v) k = some v := by
  induction d with
  | nil => simp [assocSet, assocGet]
  | cons p rest ih =>
    obtain ⟨k', v'⟩ := p
    by_cases hk : k' = k
    · simp [assocSet, hk, assocGet]
    · simp [assocSet, hk, assocGet, ih]

theorem componentInitSome (h : Heap) (pdict : Nat) (pn cid : String) (ts : Nat)
    (r : Nat) (hkey : assocGet (h.getDict pdict) beamKey = some r) :
    componentInit h pdict pn cid ts
      = (⟨h.dicts ++ [assocSet (h.getDict pdict) beamKey h.lists.length],
          h.lists ++ [(h.getList r).filter (fun a => !(pyStartsWith a "--job_name"))
            ++ [jobNameArg pn cid ts]]⟩,
         h.dicts.length) := by
  have hkey2 : assocGet (h.dicts.getD pdict []) beamKey = some r := hkey
  simp only [componentInit, Heap.allocDict, Heap.allocList, Heap.setDictKey,
    Heap.setList, Heap.getDict, Heap.getList, hkey2, getDAppendLen, setAppendLen]

theorem componentInitNone (h : Heap) (pdict : Nat) (pn cid : String) (ts : Nat)
    (hkey : assocGet (h.getDict pdict) beamKey = none) :
    componentInit h pdict pn cid ts
      = (⟨h.dicts ++ [assocSet (assocSet (h.getDict pdict) beamKey h.lists.length)
            beamKey (h.lists ++ [[]]).length],
          (h.lists ++ [[]]) ++ [[jobNameArg pn cid ts]]⟩,
         h.dicts.length) := by
  have hkey2 : assocGet (h.dicts.getD pdict []) beamKey = none := hkey
  simp only [componentInit, Heap.allocDict, Heap.allocList, Heap.setDictKey,
    Heap.setList, Heap.getDict, Heap.getList, hkey2, getDAppendLen, setAppendLen,
    List.filter_nil, List.nil_append]

theorem filterNotKeep (l : List String) :
    (l.filter (fun a => !(pyStartsWith a "--job_name"))).filter
      (fun a => pyStartsWith a "--job_name") = [] := by
  induction l with
  | nil => rfl
  | cons a t ih =>
    by_cases ha : pyStartsWith a "--job_name" = true
    · simp [List.filter_cons, ha, ih]
    · simp [List.filter_cons, ha, ih]

/-- Claim C6: after `_ComponentAsDoFn.__init__`, the DoFn's effective
`beam_pipeline_args` list is the pipeline's previous list with every
argument starting with `--job_name` stripped, followed by the newly derived
`--job_name=...` argument — so it contains exactly one argument of that
kind, namely the derived one, however many the user supplied. -/
theorem claim6_job_name_unique (h : Heap) (pdict : Nat) (pn cid : String) (ts : Nat) :
    beamArgsOf (componentInit h pdict pn cid ts).1 (componentInit h pdict pn cid ts).2
      = some (newBeamArgs (origBeamArgs h pdict) pn cid ts)
    ∧ (newBeamArgs (origBeamArgs h pdict) pn cid ts).filter
        (fun a => pyStartsWith a "--job_name") = [jobNameArg pn cid ts] := by
  constructor
  · cases hkey : assocGet (h.getDict pdict) beamKey with
    | some r =>
      rw [componentInitSome h pdict pn cid ts r hkey]
      simp only [beamArgsOf, origBeamArgs, newBeamArgs, Heap.getDict, Heap.getList,
        getDAppendLen, assocGetSetSelf]
      have hkey2 : assocGet (h.dicts.getD pdict []) beamKey = some r := hkey
      simp only [hkey2]
    | none =>
      rw [componentInitNone h pdict pn cid ts hkey]
      simp only [beamArgsOf, origBeamArgs, newBeamArgs, Heap.getDict, Heap.getList,
        getDAppendLen, assocGetSetSelf]
      have hkey2 : assocGet (h.dicts.getD pdict []) beamKey = none := hkey
      simp only [hkey2, List.filter_nil, List.nil_append]
  · rw [newBeamArgs, List.filter_append, filterNotKeep, List.nil_append]
    simp only [List.filter_cons, List.filter_nil, jobNameArg, jobNameArgStarts, if_pos]

/-- Claim C10: `_ComponentAsDoFn.__init__` leaves the pipeline object
unchanged — the pipeline's `additional_pipeline_args` dict object and its
`beam_pipeline_args` list object hold the same values after construction as
before (the DoFn mutates only its own shallow copy and freshly allocated
lists). -/
theorem claim10_pipeline_unchanged (h : Heap) (pdict : Nat) (pn cid : String)
    (ts : Nat) (hpd : pdict < h.dicts.length)
    (hwf : ∀ r, assocGet (h.getDict pdict) beamKey = some r → r < h.lists.length) :
    (componentInit h pdict pn cid ts).1.getDict pdict = h.getDict pdict
    ∧ origBeamArgs (componentInit h pdict pn cid ts).1 pdict = origBeamArgs h pdict := by
  cases hkey : assocGet (h.getDict pdict) beamKey with
  | some r =>
    have hr : r < h.lists.length := hwf r hkey
    rw [componentInitSome h pdict pn cid ts r hkey]
    have hkey2 : assocGet (h.dicts.getD pdict []) beamKey = some r := hkey
    constructor
    · simp only [Heap.getDict]
      rw [getDAppendBelow _ _ _ _ hpd]
    · simp only [origBeamArgs, Heap.getDict, Heap.getList]
      rw [getDAppendBelow _ _ _ _ hpd]
      simp only [hkey2]
      rw [getDAppendBelow _ _ _ _ hr]
  | none =>
    rw [componentInitNone h pdict pn cid ts hkey]
    have hkey2 : assocGet (h.dicts.getD pdict []) beamKey = none := hkey
    constructor
    · simp only [Heap.getDict]
      rw [getDAppendBelow _ _ _ _ hpd]
    · simp only [origBeamArgs, Heap.getDict, Heap.getList]
      rw [getDAppendBelow _ _ _ _ hpd]
      simp only [hkey2]

theorem claim10_witness :
    0 < (Heap.mk [[(beamKey, 0)]] [["--job_name=old", "--runner=x"]]).dicts.length
    ∧ (componentInit (Heap.mk [[(beamKey, 0)]] [["--job_name=old", "--runner=x"]])
        0 "p" "c" 7).1.getDict 0
      = (Heap.mk [[(beamKey, 0)]] [["--job_name=old", "--runner=x"]]).getDict 0
    ∧ origBeamArgs (componentInit (Heap.mk [[(beamKey, 0)]]
          [["--job_name=old", "--runner=x"]]) 0 "p" "c" 7).1 0
      = origBeamArgs (Heap.mk [[(beamKey, 0)]] [["--job_name=old", "--runner=x"]]) 0 :=
  ⟨by decide,
   claim10_pipeline_unchanged (Heap.mk [[(beamKey, 0)]] [["--job_name=old", "--runner=x"]])
     0 "p" "c" 7 (by decide)
     (by
       intro r hr
       have hr2 : some 0 = some r := hr
       cases hr2
       decide)⟩

/-! ## Run identifier (claim C9) -/

theorem maskStepDigit (c : Char) (cs ms : List Char) (hc : c.isDigit = true)
    (h : matchesMask cs ms = true) : matchesMask (c :: cs) ('d' :: ms) = true := by
  simp [matchesMask, hc, h]

theorem maskStepLit (c : Char) (cs ms : List Char) (hne : ¬ c = 'd')
    (h : matchesMask cs ms = true) : matchesMask (c :: cs) (c :: ms) = true := by
  simp [matchesMask, hne, h]

theorem isoOfBounds (dt : PyDateTime) (hy : dt.year ≤ 9999) (hmo : dt.month ≤ 12)
    (hd : dt.day ≤ 31) (hh : dt.hour ≤ 23) (hmi : dt.minute ≤ 59)
    (hs : dt.second ≤ 59) (hus : dt.microsecond ≤ 999999) :
    isIso8601 (pyIsoFormat dt) = true := by
  have hdata : (pyIsoFormat dt).data
      = pad4 dt.year ++ '-' :: pad2 dt.month ++ '-' :: pad2 dt.day
        ++ 'T' :: pad2 dt.hour ++ ':' :: pad2 dt.minute ++ ':' :: pad2 dt.second
        ++ (if dt.microsecond = 0 then [] else '.' :: pad6 dt.microsecond) := rfl
  rw [isIso8601, hdata, Bool.or_eq_true]
  by_cases hzero : dt.microsecond = 0
  · left
    rw [if_pos hzero]
    simp only [pad4, pad2, isoMaskSec, List.cons_append, List.nil_append, List.append_nil]
    refine maskStepDigit _ _ _ (digitCharIsDigit (by omega)) ?_
    refine maskStepDigit _ _ _ (digitCharIsDigit (by omega)) ?_
    refine maskStepDigit _ _ _ (digitCharIsDigit (by omega)) ?_
    refine maskStepDigit _ _ _ (digitCharIsDigit (by omega)) ?_
    refine maskStepLit _ _ _ (by decide) ?_
    refine maskStepDigit _ _ _ (digitCharIsDigit (by omega)) ?_
    refine maskStepDigit _ _ _ (digitCharIsDigit (by omega)) ?_
    refine maskStepLit _ _ _ (by decide) ?_
    refine maskStepDigit _ _ _ (digitCharIsDigit (by omega)) ?_
    refine maskStepDigit _ _ _ (digitCharIsDigit (by omega)) ?_
    refine maskStepLit _ _ _ (by decide) ?_
    refine maskStepDigit _ _ _ (digitCharIsDigit (by omega)) ?_
    refine maskStepDigit _ _ _ (digitCharIsDigit (by omega)) ?_
    refine maskStepLit _ _ _ (by decide) ?_
    refine maskStepDigit _ _ _ (digitCharIsDigit (by omega)) ?_
    refine maskStepDigit _ _ _ (digitCharIsDigit (by omega)) ?_
    refine maskStepLit _ _ _ (by decide) ?_
    refine maskStepDigit _ _ _ (digitCharIsDigit (by omega)) ?_
    refine maskStepDigit _ _ _ (digitCharIsDigit (by omega)) ?_
    rfl
  · right
    rw [if_neg hzero]
    simp only [pad4, pad2, pad6, isoMaskMicro, isoMaskSec, List.cons_append,
      List.nil_append, List.append_nil]
    refine maskStepDigit _ _ _ (digitCharIsDigit (by omega)) ?_
    refine maskStepDigit _ _ _ (digitCharIsDigit (by omega)) ?_
    refine maskStepDigit _ _ _ (digitCharIsDigit (by omega)) ?_
    refine maskStepDigit _ _ _ (digitCharIsDigit (by omega)) ?_
    refine maskStepLit _ _ _ (by decide) ?_
    refine maskStepDigit _ _ _ (digitCharIsDigit (by omega)) ?_
    refine maskStepDigit _ _ _ (digitCharIsDigit (by omega)) ?_
    refine maskStepLit _ _ _ (by decide) ?_
    refine maskStepDigit _ _ _ (digitCharIsDigit (by omega)) ?_
    refine maskStepDigit _ _ _ (digitCharIsDigit (by omega)) ?_
    refine maskStepLit _ _ _ (by decide) ?_
    refine maskStepDigit _ _ _ (digitCharIsDigit (by omega)) ?_
    refine maskStepDigit _ _ _ (digitCharIsDigit (by omega)) ?_
    refine maskStepLit _ _ _ (by decide) ?_
    refine maskStepDigit _ _ _ (digitCharIsDigit (by omega)) ?_
    refine maskStepDigit _ _ _ (digitCharIsDigit (by omega)) ?_
    refine maskStepLit _ _ _ (by decide) ?_
    refine maskStepDigit _ _ _ (digitCharIsDigit (by omega)) ?_
    refine maskStepDigit _ _ _ (digitCharIsDigit (by omega)) ?_
    refine maskStepLit _ _ _ (by decide) ?_
    refine maskStepDigit _ _ _ (digitCharIsDigit (by omega)) ?_
    refine maskStepDigit _ _ _ (digitCharIsDigit (by omega)) ?_
    refine maskStepDigit _ _ _ (digitCharIsDigit (by omega)) ?_
    refine maskStepDigit _ _ _ (digitCharIsDigit (by omega)) ?_
    refine maskStepDigit _ _ _ (digitCharIsDigit (by omega)) ?_
    refine maskStepDigit _ _ _ (digitCharIsDigit (by omega)) ?_
    rfl

/-- Claim C9 counterexample: when the export environment variable is set,
`run` returns early and assigns no run identifier at all, so the claim as
stated fails for such an invocation. -/
theorem claim9_counterexample :
    runTrace (RunInput.mk true "p" [⟨"a", []⟩] ["--job_name=x"] 5
        ⟨2023, 11, 14, 22, 13, 20, 0⟩) = [REvent.exportReturn]
    ∧ numRunIdAssigns (runTrace (RunInput.mk true "p" [⟨"a", []⟩] ["--job_name=x"] 5
        ⟨2023, 11, 14, 22, 13, 20, 0⟩)) = 0 :=
  ⟨by rfl, by rfl⟩

/-- Claim C9 (amended): for every invocation of `run` that is not
short-circuited by the export environment variable (and whose clock reading
is a valid date-time), the run identifier — the ISO-8601 `isoformat` of the
current time — is assigned at the start of the run: the trace is the
orchestrator-args prelude (which schedules nothing and assigns nothing)
followed by the run-id assignment, which precedes the root-trigger creation
and every scheduled execution unit. -/
theorem claim9_run_id_assigned (inp : RunInput) (henv : inp.envExportSet = false)
    (hy : inp.now.year ≤ 9999) (hmo : inp.now.month ≤ 12) (hd : inp.now.day ≤ 31)
    (hh : inp.now.hour ≤ 23) (hmi : inp.now.minute ≤ 59) (hs : inp.now.second ≤ 59)
    (hus : inp.now.microsecond ≤ 999999) :
    runTrace inp = orchPrefix inp
        ++ REvent.assignRunId (pyIsoFormat inp.now) :: REvent.createRoot
          :: scheduleGo [] inp.components
    ∧ numUnitsScheduled (orchPrefix inp) = 0
    ∧ numRunIdAssigns (orchPrefix inp) = 0
    ∧ isIso8601 (pyIsoFormat inp.now) = true := by
  have hpre : numUnitsScheduled (orchPrefix inp) = 0
      ∧ numRunIdAssigns (orchPrefix inp) = 0 := by
    cases hA : inp.beamOrchestratorArgs.any (fun a => pyStartsWith a "--job_name=") with
    | true =>
      simp [orchPrefix, hA, numUnitsScheduled, numRunIdAssigns]
    | false =>
      simp [orchPrefix, hA, numUnitsScheduled, numRunIdAssigns, isUnitEvent, isAssignEvent]
  exact ⟨by simp [runTrace, henv], hpre.1, hpre.2,
    isoOfBounds inp.now hy hmo hd hh hmi hs hus⟩

theorem claim9_witness :
    runTrace (RunInput.mk false "p" [⟨"a", []⟩] [] 1700000000
        ⟨2023, 11, 14, 22, 13, 20, 123456⟩)
      = orchPrefix (RunInput.mk false "p" [⟨"a", []⟩] [] 1700000000
          ⟨2023, 11, 14, 22, 13, 20, 123456⟩)
        ++ REvent.assignRunId (pyIsoFormat ⟨2023, 11, 14, 22, 13, 20, 123456⟩)
          :: REvent.createRoot :: scheduleGo [] [⟨"a", []⟩]
    ∧ numUnitsScheduled (orchPrefix (RunInput.mk false "p" [⟨"a", []⟩] [] 1700000000
        ⟨2023, 11, 14, 22, 13, 20, 123456⟩)) = 0
    ∧ numRunIdAssigns (orchPrefix (RunInput.mk false "p" [⟨"a", []⟩] [] 1700000000
        ⟨2023, 11, 14, 22, 13, 20, 123456⟩)) = 0
    ∧ isIso8601 (pyIsoFormat ⟨2023, 11, 14, 22, 13, 20, 123456⟩) = true :=
  claim9_run_id_assigned _ rfl (by decide) (by decide) (by decide) (by decide)
    (by decide) (by decide) (by decide)

/-! ## Graph builder: deduplication (claims C3, C4, C8) -/

theorem memDedupSeen (a : Node) : ∀ (l seen : List Node),
    a ∈ dedupSeen seen l ↔ a ∈ l ∧ a ∉ seen := by
  intro l
  induction l with
  | nil => intro seen; simp [dedupSeen]
  | cons x xs ih =>
    intro seen
    by_cases hx : x ∈ seen
    · rw [dedupSeen, if_pos hx, ih]
      simp only [List.mem_cons]
      constructor
      · rintro ⟨h1, h2⟩
        exact ⟨Or.inr h1, h2⟩
      · rintro ⟨rfl | h1, h2⟩
        · exact absurd hx h2
        · exact ⟨h1, h2⟩
    · rw [dedupSeen, if_neg hx]
      simp only [List.mem_cons, ih]
      constructor
      · rintro (rfl | ⟨h1, h2⟩)
        · exact ⟨Or.inl rfl, hx⟩
        · push_neg at h2
          exact ⟨Or.inr h1, h2.2⟩
      · rintro ⟨rfl | h1, h2⟩
        · exact Or.inl rfl
        · by_cases hax : a = x
          · exact Or.inl hax
          · refine Or.inr ⟨h1, ?_⟩
            push_neg
            exact ⟨hax, h2⟩

theorem nodupDedupSeen : ∀ (l seen : List Node), (dedupSeen seen l).Nodup := by
  intro l
  induction l with
  | nil => intro seen; simp [dedupSeen]
  | cons x xs ih =>
    intro seen
    by_cases hx : x ∈ seen
    · rw [dedupSeen, if_pos hx]
      exact ih seen
    · rw [dedupSeen, if_neg hx]
      refine List.Nodup.cons ?_ (ih (x :: seen))
      rw [memDedupSeen]
      rintro ⟨-, h2⟩
      exact h2 (List.mem_cons_self x seen)

theorem dedupSeenFix : ∀ (l seen : List Node), l.Nodup → (∀ x ∈ l, x ∉ seen) →
    dedupSeen seen l = l := by
  intro l
  induction l with
  | nil => intro seen _ _; rfl
  | cons x xs ih =>
    intro seen hnd hs
    have hx : x ∉ seen := hs x (List.mem_cons_self x xs)
    rw [dedupSeen, if_neg hx]
    congr 1
    refine ih (x :: seen) (List.Nodup.of_cons hnd) ?_
    intro y hy
    simp only [List.mem_cons]
    push_neg
    refine ⟨fun hxy => (List.nodup_cons.1 hnd).1 (hxy ▸ hy), hs y (by simp [hy])⟩

theorem memDedupFirst (a : Node) (l : List Node) : a ∈ dedupFirst l ↔ a ∈ l := by
  rw [dedupFirst, memDedupSeen]
  simp

theorem nodupDedupFirst (l : List Node) : (dedupFirst l).Nodup := nodupDedupSeen l []

theorem dedupFirstIdem (l : List Node) : dedupFirst (dedupFirst l) = dedupFirst l :=
  dedupSeenFix (dedupFirst l) [] (nodupDedupFirst l) (by simp)

/-! ## Graph builder: topological sort (claims C3, C8) -/

theorem kahnAuxPerm : ∀ (fuel : Nat) (remaining out : List Node),
    kahnAux fuel remaining = .ok out → out.Perm remaining := by
  intro fuel
  induction fuel with
  | zero =>
    intro remaining out h
    cases remaining with
    | nil =>
      simp only [kahnAux, Except.ok.injEq] at h
      subst h
      exact List.Perm.nil
    | cons r rs => simp [kahnAux] at h
  | succ fuel ih =>
    intro remaining out h
    cases remaining with
    | nil =>
      simp only [kahnAux, Except.ok.injEq] at h
      subst h
      exact List.Perm.nil
    | cons r rs =>
      cases hfind : (r :: rs).find? (zeroIndeg (r :: rs)) with
      | none => simp [kahnAux, hfind] at h
      | some v =>
        cases hrec : kahnAux fuel ((r :: rs).erase v) with
        | error e => simp [kahnAux, hfind, hrec] at h
        | ok rest =>
          simp only [kahnAux, hfind, hrec, Except.ok.injEq] at h
          rw [← h]
          have hv : v ∈ r :: rs := List.mem_of_find?_eq_some hfind
          exact ((ih _ _ hrec).cons v).trans (List.perm_cons_erase hv).symm

theorem chainFromPred : ∀ (vs : List Node) (u start : Node),
    chainFrom u vs start = true →
    (∀ v ∈ vs, ∃ w ∈ u :: vs, hasEdge w v = true)
    ∧ (∃ w ∈ u :: vs, hasEdge w start = true) := by
  intro vs
  induction vs with
  | nil =>
    intro u start h
    exact ⟨by simp, ⟨u, by simp, h⟩⟩
  | cons v vs ih =>
    intro u start h
    simp only [chainFrom, Bool.and_eq_true] at h
    obtain ⟨h1, h2⟩ := h
    obtain ⟨ha, w, hw, hws⟩ := ih v start h2
    constructor
    · intro x hx
      rcases List.mem_cons.1 hx with rfl | hx
      · exact ⟨u, List.mem_cons_self u (x :: vs), h1⟩
      · obtain ⟨w', hw', hx'⟩ := ha x hx
        exact ⟨w', List.mem_cons_of_mem u hw', hx'⟩
    · exact ⟨w, List.mem_cons_of_mem u hw, hws⟩

theorem cyclePred (cyc : List Node) (h : isCycleList cyc = true) :
    ∀ v ∈ cyc, ∃ u ∈ cyc, hasEdge u v = true := by
  cases cyc with
  | nil => simp [isCycleList] at h
  | cons c cs =>
    simp only [isCycleList, Bool.and_eq_true] at h
    obtain ⟨-, hchain⟩ := h
    obtain ⟨ha, hclose⟩ := chainFromPred cs c c hchain
    intro v hv
    rcases List.mem_cons.1 hv with rfl | hv
    · exact hclose
    · exact ha v hv

theorem kahnAuxCycle (cycNodes : List Node) (hne : cycNodes ≠ [])
    (hpred : ∀ v ∈ cycNodes, ∃ u ∈ cycNodes, hasEdge u v = true) :
    ∀ (fuel : Nat) (remaining : List Node), (∀ c ∈ cycNodes, c ∈ remaining) →
    ∃ names, kahnAux fuel remaining = .error (.cycleDetected names)
      ∧ ∀ c ∈ cycNodes, c.id ∈ names := by
  intro fuel
  induction fuel with
  | zero =>
    intro remaining hsub
    cases remaining with
    | nil =>
      exfalso
      cases cycNodes with
      | nil => exact hne rfl
      | cons a t => exact absurd (hsub a (by simp)) (by simp)
    | cons r rs =>
      refine ⟨(r :: rs).map Node.id, by simp [kahnAux], ?_⟩
      intro c hc
      exact List.mem_map_of_mem Node.id (hsub c hc)
  | succ fuel ih =>
    intro remaining hsub
    cases remaining with
    | nil =>
      exfalso
      cases cycNodes with
      | nil => exact hne rfl
      | cons a t => exact absurd (hsub a (by simp)) (by simp)
    | cons r rs =>
      cases hfind : (r :: rs).find? (zeroIndeg (r :: rs)) with
      | none =>
        refine ⟨(r :: rs).map Node.id, ?_, ?_⟩
        · simp [kahnAux, hfind]
        · intro c hc
          exact List.mem_map_of_mem Node.id (hsub c hc)
      | some v =>
        have hvnotcyc : v ∉ cycNodes := by
          intro hv
          obtain ⟨u, hu, hedge⟩ := hpred v hv
          have hzero := List.find?_some hfind
          rw [zeroIndeg, List.all_eq_true] at hzero
          have := hzero u (hsub u hu)
          simp [hedge] at this
        have hsub' : ∀ c ∈ cycNodes, c ∈ (r :: rs).erase v := by
          intro c hc
          refine (List.mem_erase_of_ne ?_).2 (hsub c hc)
          intro hcv
          exact hvnotcyc (hcv ▸ hc)
        obtain ⟨names, hnames, hmem⟩ := ih ((r :: rs).erase v) hsub'
        refine ⟨names, ?_, hmem⟩
        simp [kahnAux, hfind, hnames]

/-- Claim C3 counterexample: a collection holding both a two-node dependency
cycle and a pair of distinct nodes with the same identity fails construction
with `DuplicateNodeIdentity` (identity uniqueness is checked first), not
with `CycleDetected`, so the claim as stated does not hold for every
collection containing a cycle. -/
theorem claim3_counterexample :
    isCycleList [(⟨"a", [("x", ⟨"tb", some "b"⟩)], []⟩ : Node),
        ⟨"b", [("y", ⟨"ta", some "a"⟩)], []⟩] = true
    ∧ (⟨"a", [("x", ⟨"tb", some "b"⟩)], []⟩ : Node)
        ∈ [(⟨"a", [("x", ⟨"tb", some "b"⟩)], []⟩ : Node),
           ⟨"b", [("y", ⟨"ta", some "a"⟩)], []⟩,
           ⟨"c", [], [("o", ⟨"t1", none⟩)]⟩, ⟨"c", [], [("o", ⟨"t2", none⟩)]⟩]
    ∧ (⟨"b", [("y", ⟨"ta", some "a"⟩)], []⟩ : Node)
        ∈ [(⟨"a", [("x", ⟨"tb", some "b"⟩)], []⟩ : Node),
           ⟨"b", [("y", ⟨"ta", some "a"⟩)], []⟩,
           ⟨"c", [], [("o", ⟨"t1", none⟩)]⟩, ⟨"c", [], [("o", ⟨"t2", none⟩)]⟩]
    ∧ build [(⟨"a", [("x", ⟨"tb", some "b"⟩)], []⟩ : Node),
           ⟨"b", [("y", ⟨"ta", some "a"⟩)], []⟩,
           ⟨"c", [], [("o", ⟨"t1", none⟩)]⟩, ⟨"c", [], [("o", ⟨"t2", none⟩)]⟩]
        = .error .duplicateNodeIdentity :=
  ⟨by decide, by decide, by decide, by rfl⟩

/-- Claim C3 (amended): for every collection of nodes in which distinct
nodes have distinct identities, if the collection contains a dependency
cycle of length at least 2 then construction fails with `CycleDetected`
naming at least one node on the cycle (indeed every cycle node), and in
particular never returns a node list. -/
theorem claim3_cycle_detected (nodes cyc : List Node)
    (hinj : ∀ u ∈ nodes, ∀ v ∈ nodes, u.id = v.id → u = v)
    (hcyc : isCycleList cyc = true)
    (hsub : ∀ c ∈ cyc, c ∈ nodes) :
    ∃ names, build nodes = .error (.cycleDetected names)
      ∧ ∀ c ∈ cyc, c.id ∈ names := by
  have hnd : ((dedupFirst nodes).map Node.id).Nodup := by
    refine List.Nodup.map_on ?_ (nodupDedupFirst nodes)
    intro x hx y hy hxy
    exact hinj x ((memDedupFirst x nodes).1 hx) y ((memDedupFirst y nodes).1 hy) hxy
  have hne : cyc ≠ [] := by
    cases cyc with
    | nil => simp [isCycleList] at hcyc
    | cons c cs => simp
  obtain ⟨names, hb, hm⟩ := kahnAuxCycle cyc hne (cyclePred cyc hcyc)
    (dedupFirst nodes).length (dedupFirst nodes)
    (fun c hc => (memDedupFirst c nodes).2 (hsub c hc))
  refine ⟨names, ?_, hm⟩
  rw [build, if_pos hnd, hb]

theorem claim3_witness :
    (∀ u ∈ [(⟨"a", [("x", ⟨"tb", some "b"⟩)], []⟩ : Node),
        ⟨"b", [("y", ⟨"ta", some "a"⟩)], []⟩],
      ∀ v ∈ [(⟨"a", [("x", ⟨"tb", some "b"⟩)], []⟩ : Node),
        ⟨"b", [("y", ⟨"ta", some "a"⟩)], []⟩], u.id = v.id → u = v)
    ∧ (∃ names,
        build [(⟨"a", [("x", ⟨"tb", some "b"⟩)], []⟩ : Node),
          ⟨"b", [("y", ⟨"ta", some "a"⟩)], []⟩] = .error (.cycleDetected names)
        ∧ ∀ c ∈ [(⟨"a", [("x", ⟨"tb", some "b"⟩)], []⟩ : Node),
            ⟨"b", [("y", ⟨"ta", some "a"⟩)], []⟩], c.id ∈ names) :=
  ⟨by decide, claim3_cycle_detected _ _ (by decide) (by decide) (by decide)⟩

/-- Claim C4: a collection holding two distinct nodes with identical
identity fails construction with `DuplicateNodeIdentity` (at construction,
before any scheduling). -/
theorem claim4_duplicate_identity (nodes : List Node) (u v : Node)
    (hu : u ∈ nodes) (hv : v ∈ nodes) (hne : u ≠ v) (hid : u.id = v.id) :
    build nodes = .error .duplicateNodeIdentity := by
  have hnd : ¬ ((dedupFirst nodes).map Node.id).Nodup := by
    intro hmap
    have hinj := List.inj_on_of_nodup_map hmap
    exact hne (hinj ((memDedupFirst u nodes).2 hu) ((memDedupFirst v nodes).2 hv) hid)
  rw [build, if_neg hnd]

theorem claim4_witness :
    (⟨"c", [], [("o", ⟨"t1", none⟩)]⟩ : Node)
      ∈ [(⟨"c", [], [("o", ⟨"t1", none⟩)]⟩ : Node), ⟨"c", [], [("o", ⟨"t2", none⟩)]⟩]
    ∧ (⟨"c", [], [("o", ⟨"t2", none⟩)]⟩ : Node)
      ∈ [(⟨"c", [], [("o", ⟨"t1", none⟩)]⟩ : Node), ⟨"c", [], [("o", ⟨"t2", none⟩)]⟩]
    ∧ (⟨"c", [], [("o", ⟨"t1", none⟩)]⟩ : Node) ≠ ⟨"c", [], [("o", ⟨"t2", none⟩)]⟩
    ∧ build [(⟨"c", [], [("o", ⟨"t1", none⟩)]⟩ : Node), ⟨"c", [], [("o", ⟨"t2", none⟩)]⟩]
      = .error .duplicateNodeIdentity :=
  ⟨by decide, by decide, by decide,
   claim4_duplicate_identity
     [(⟨"c", [], [("o", ⟨"t1", none⟩)]⟩ : Node), ⟨"c", [], [("o", ⟨"t2", none⟩)]⟩]
     ⟨"c", [], [("o", ⟨"t1", none⟩)]⟩ ⟨"c", [], [("o", ⟨"t2", none⟩)]⟩
     (by decide) (by decide) (by decide) rfl⟩

/-- Claim C8: construction is idempotent with respect to duplicate node
references — building from the raw collection equals building from the
deduplicated collection, and a successful result lists each distinct
identity exactly once, as a permutation of the deduplicated input. -/
theorem claim8_dedup_idempotent (nodes : List Node) :
    build nodes = build (dedupFirst nodes)
    ∧ ∀ out, build nodes = .ok out →
      (out.map Node.id).Nodup ∧ out.Perm (dedupFirst nodes) := by
  constructor
  · simp only [build, dedupFirstIdem]
  · intro out hout
    rw [build] at hout
    by_cases hnd : ((dedupFirst nodes).map Node.id).Nodup
    · rw [if_pos hnd] at hout
      have hperm := kahnAuxPerm _ _ _ hout
      exact ⟨(hperm.map Node.id).nodup_iff.2 hnd, hperm⟩
    · rw [if_neg hnd] at hout
      simp at hout

theorem claim8_witness :
    build [(⟨"a", [], []⟩ : Node), ⟨"b", [("x", ⟨"t", some "a"⟩)], []⟩, ⟨"a", [], []⟩]
      = .ok [(⟨"a", [], []⟩ : Node), ⟨"b", [("x", ⟨"t", some "a"⟩)], []⟩]
    ∧ (([(⟨"a", [], []⟩ : Node), ⟨"b", [("x", ⟨"t", some "a"⟩)], []⟩]).map Node.id).Nodup
    ∧ ([(⟨"a", [], []⟩ : Node), ⟨"b", [("x", ⟨"t", some "a"⟩)], []⟩]).Perm
        (dedupFirst [(⟨"a", [], []⟩ : Node), ⟨"b", [("x", ⟨"t", some "a"⟩)], []⟩, ⟨"a", [], []⟩]) :=
  ⟨by rfl,
   (claim8_dedup_idempotent [(⟨"a", [], []⟩ : Node), ⟨"b", [("x", ⟨"t", some "a"⟩)], []⟩,
      ⟨"a", [], []⟩]).2
     [(⟨"a", [], []⟩ : Node), ⟨"b", [("x", ⟨"t", some "a"⟩)], []⟩] (by rfl)⟩

end Tfx
